import Mathlib

/-!
Verification of the mirror-reconciliation engine of `flickrmirrorer.py`
(a command-line tool that maintains a local on-disk mirror of a remote
photo/video collection: photostream content files plus JSON sidecars,
album directories of ordered symlinks, nested collection directories).

This file shallowly embeds the functions of `src/flickrmirrorer.py` that
the checked claims are about, and proves or refutes each claim over that
embedding.  Conventions used throughout:

* the filesystem is modelled explicitly; JSON sidecar files written by
  the program itself always hold a document the program produced, so a
  sidecar store maps a path to the decoded document (`Option doc`,
  `none` = no such file);
* a `sys.exit(1)` in the source is modelled by a dedicated error
  constructor of the operation's result type;
* Python dict comparison with `!=` on decoded JSON documents is
  modelled by decidable equality on the corresponding Lean type.
-/

namespace Flickrmirrorer

/-- Media kind of an item (the `media` field of a photo record):
photo or video. -/
inductive Media where
  | photo
  | video
deriving DecidableEq, Repr

/-- A decoded media-item metadata record, as returned by the remote
listing calls and as persisted into `.metadata` sidecar files
(`_download_photo` dumps the whole record).  The fields the engine
inspects are explicit; everything else the provider returns is carried
opaquely in `extra` so that structural equality of two records reflects
Python dict equality of the decoded documents. -/
structure PhotoRec where
  id : String
  media : Media
  originalformat : String
  lastupdate : String
  title : String
  datetaken : String
  datetakenunknown : String
  extra : List (String × String)
deriving DecidableEq, Repr

instance : Inhabited PhotoRec :=
  ⟨⟨"", Media.photo, "", "", "", "", "", []⟩⟩

/-- `NUM_PHOTOS_PER_BATCH` (line 90): page size used for all paginated
listing calls. -/
def NUM_PHOTOS_PER_BATCH : Nat := 500

/-- Embedding of the static method `_is_file_different(filename, data)`
(lines 834-846): open the file, decode its JSON, return `True` when the
decoded content differs from `data`; a missing file (`IOError` with
`ENOENT`) also returns `True`.  The store maps a path to the decoded
document it holds (`none` when no file exists); the method only reads,
so it is a pure function of the store. -/
def is_file_different {α : Type} [DecidableEq α]
    (fs : String → Option α) (filename : String) (data : α) : Bool :=
  match fs filename with
  | some orig_data => decide (orig_data ≠ data)
  | none => true

/-- Embedding of the content-refresh decision of `_download_photo`
(lines 478-488): download when the content file does not exist; when it
exists, download only if a metadata sidecar exists and its stored
`lastupdate` differs from the fresh record's `lastupdate`; a missing
sidecar (`ENOENT`) leaves the decision at "do not download". -/
def should_download_photo (contentExists : Bool)
    (sidecar : Option PhotoRec) (photo : PhotoRec) : Bool :=
  if contentExists then
    match sidecar with
    | some metadata => decide (metadata.lastupdate ≠ photo.lastupdate)
    | none => false
  else
    true

/-- Claim C3: for every sidecar path and fresh metadata record,
`_is_file_different` returns `false` if and only if a sidecar file
exists and its decoded content is structurally equal to the fresh
record; in particular it returns `true` whenever no sidecar exists.
The embedding is a pure function of the store, so the comparison has no
side effect on the store. -/
theorem is_file_different_false_iff {α : Type} [DecidableEq α]
    (fs : String → Option α) (filename : String) (data : α) :
    (is_file_different fs filename data = false ↔ fs filename = some data) ∧
    (fs filename = none → is_file_different fs filename data = true) := by
  constructor
  · unfold is_file_different
    cases h : fs filename with
    | none => simp
    | some orig => simp [h]
  · intro h
    unfold is_file_different
    rw [h]

/-- Witness for C3 at a concrete store: a store holding the fresh record
at the sidecar path makes the comparison return `false`, and an empty
store makes it return `true`. -/
theorem is_file_different_false_iff_witness :
    (is_file_different
        (fun p => if p = "1.jpg.metadata" then some (default : PhotoRec) else none)
        "1.jpg.metadata" default = false) ∧
    (is_file_different (fun _ => (none : Option PhotoRec)) "1.jpg.metadata" default
        = true) := by
  constructor
  · exact (is_file_different_false_iff
      (fun p => if p = "1.jpg.metadata" then some (default : PhotoRec) else none)
      "1.jpg.metadata" default).1.mpr (by simp)
  · exact (is_file_different_false_iff
      (fun _ => (none : Option PhotoRec)) "1.jpg.metadata" default).2 rfl

/-- Claim C4: content is (re)fetched if and only if the local content
file is absent, or a sidecar exists whose stored `lastupdate` differs
from the fresh record's; in particular, an existing content file with no
sidecar is never re-fetched. -/
theorem should_download_photo_iff (contentExists : Bool)
    (sidecar : Option PhotoRec) (photo : PhotoRec) :
    (should_download_photo contentExists sidecar photo = true ↔
      (contentExists = false ∨
        ∃ m, sidecar = some m ∧ m.lastupdate ≠ photo.lastupdate)) ∧
    should_download_photo true none photo = false := by
  refine ⟨?_, rfl⟩
  unfold should_download_photo
  cases contentExists with
  | false => simp
  | true =>
    cases sidecar with
    | none => simp
    | some m => simp

/-- Witness for C4: with the content file present and a sidecar whose
`lastupdate` matches, no fetch happens; changing the stored `lastupdate`
forces a fetch. -/
theorem should_download_photo_iff_witness :
    should_download_photo true (some default) default = false ∧
    should_download_photo true
      (some { (default : PhotoRec) with lastupdate := "1" })
      { (default : PhotoRec) with lastupdate := "2" } = true := by
  constructor
  · have h := (should_download_photo_iff true (some default) default).1
    have hnot : ¬ (should_download_photo true (some default) default = true) := by
      intro ht
      rcases h.mp ht with h1 | ⟨m, hm, hne⟩
      · cases h1
      · cases hm
        exact hne rfl
    simpa using hnot
  · exact (should_download_photo_iff true
      (some { (default : PhotoRec) with lastupdate := "1" })
      { (default : PhotoRec) with lastupdate := "2" }).1.mpr
      (Or.inr ⟨_, rfl, by decide⟩)

/-- One step of `_run_helper` (lines 208-255): the actions the method can
perform after authentication succeeds. -/
inductive RunStep where
  | ensureDestDir
  | downloadAllPhotos
  | ensurePhotostreamDir
  | mirrorAlbums
  | createNotInAnyAlbumDir
  | mirrorCollections
  | printStatistics
deriving DecidableEq, Repr

/-- Embedding of the post-authentication body of `_run_helper`
(lines 231-255), as the list of steps executed in source order.  When both
photos and videos are ignored the method returns early, running nothing.
Otherwise it creates the destination directory, creates the photostream
directory, and runs the album, "not in any album" and collection passes.
The photostream download call `self._download_all_photos()` at line 246 is
commented out in the source (with the adjacent comment "tmp can delete
below when above goes back!"), so no `downloadAllPhotos` step appears. -/
def run_helper_steps (ignorePhotos ignoreVideos : Bool) : List RunStep :=
  if ignorePhotos && ignoreVideos then []
  else
    [RunStep.ensureDestDir, RunStep.ensurePhotostreamDir, RunStep.mirrorAlbums,
     RunStep.createNotInAnyAlbumDir, RunStep.mirrorCollections,
     RunStep.printStatistics]

/-- Claim C1 (code bug evidence): in the source as it stands, a default run
(photos and videos both mirrored) never executes the photostream
reconciliation pass — the call to `_download_all_photos` at line 246 is
commented out — while the remaining passes run in the order album pass,
"not in any album" pass, collection pass.  The claim (and the spec) say the
photostream pass runs first and its work is executed. -/
theorem run_helper_skips_photostream :
    RunStep.downloadAllPhotos ∉ run_helper_steps false false ∧
    run_helper_steps false false =
      [RunStep.ensureDestDir, RunStep.ensurePhotostreamDir,
       RunStep.mirrorAlbums, RunStep.createNotInAnyAlbumDir,
       RunStep.mirrorCollections, RunStep.printStatistics] := by
  decide

/-- One page of a `people.getPhotos` response as `_download_all_photos`
reads it: the reported total item count (`rsp['photos']['total']`), the
reported page count (`rsp['photos']['pages']`), and the items of this page
(`rsp['photos']['photo']`). -/
structure PhotosPage where
  total : Nat
  pages : Nat
  photo : List PhotoRec
deriving DecidableEq, Repr

/-- Outcome of the pagination loop of `_download_all_photos`
(lines 350-392): `aborted` models the `sys.exit(1)` on an item-count
mismatch (line 385), `done` is the complete item list after the loop breaks
on the last page, and `outOfPages` marks a run of the model that exhausted
the supplied responses without ever reaching the reported last page. -/
inductive PaginationResult where
  | aborted (page expected returned : Nat)
  | done (items : List PhotoRec)
  | outOfPages
deriving DecidableEq, Repr

/-- The expected item count `_download_all_photos` computes for a page
(lines 367-370): the remainder `total % NUM_PHOTOS_PER_BATCH` for the
reported last page, and a full batch for every other page. -/
def expected_count (total pages pageNo : Nat) : Nat :=
  if pageNo = pages then total % NUM_PHOTOS_PER_BATCH
  else NUM_PHOTOS_PER_BATCH

/-- Embedding of the pagination loop of `_download_all_photos`
(lines 350-392).  `total` is the running `totalPhotosMetadatasToReturn`,
overwritten from the response on page 1 (lines 364-365); `acc` accumulates
the validated items (lines 387, 397-400).  A mismatch between the returned
and expected item counts exits immediately (lines 380-385); reaching the
reported last page breaks out of the loop (lines 389-390). -/
def fetch_pages_loop (total current_page : Nat) (acc : List PhotoRec) :
    List PhotosPage → PaginationResult
  | [] => PaginationResult.outOfPages
  | rsp :: rest =>
    let tot := if current_page = 1 then rsp.total else total
    let expected := expected_count tot rsp.pages current_page
    let returned := rsp.photo.length
    if returned ≠ expected then
      PaginationResult.aborted current_page expected returned
    else if current_page = rsp.pages then
      PaginationResult.done (acc ++ rsp.photo)
    else
      fetch_pages_loop tot (current_page + 1) (acc ++ rsp.photo) rest

/-- Embedding of `_download_all_photos` (lines 326-438) at the level claim
C2 needs: run the pagination loop; only when it completes (`done`) do the
later stages run (per-item downloads, the empty-result check, and finally
the `_delete_unknown_files` call at line 438).  Those later stages are
abstracted into `prune`, which yields the number of entries the final
pruning call deletes; on any other loop outcome no deletion stage runs and
the deletion count is 0. -/
def download_all_photos_model (prune : List PhotoRec → Nat)
    (rsps : List PhotosPage) : PaginationResult × Nat :=
  match fetch_pages_loop 0 1 [] rsps with
  | PaginationResult.done items => (PaginationResult.done items, prune items)
  | r => (r, 0)

/-- A response sequence from a provider that consistently reports total
count `total` and page count `pages` and returns the given per-page item
lists, page 1 first. -/
def mk_responses (total pages : Nat) (itemss : List (List PhotoRec)) :
    List PhotosPage :=
  itemss.map (fun items => ⟨total, pages, items⟩)

theorem fetch_pages_loop_mk_cons (T P total cp : Nat) (acc items : List PhotoRec)
    (rest : List (List PhotoRec)) :
    fetch_pages_loop total cp acc (mk_responses T P (items :: rest)) =
      if items.length ≠ expected_count (if cp = 1 then T else total) P cp then
        PaginationResult.aborted cp
          (expected_count (if cp = 1 then T else total) P cp) items.length
      else if cp = P then
        PaginationResult.done (acc ++ items)
      else
        fetch_pages_loop (if cp = 1 then T else total) (cp + 1) (acc ++ items)
          (mk_responses T P rest) := rfl

theorem loop_abort_of_mismatch (T P : Nat) :
    ∀ (itemss : List (List PhotoRec)) (cp total0 : Nat) (acc : List PhotoRec),
      cp + itemss.length = P + 1 →
      (cp = 1 ∨ total0 = T) →
      (∃ k, k < itemss.length ∧
        (itemss.getD k []).length ≠ expected_count T P (cp + k)) →
      ∃ n e r, fetch_pages_loop total0 cp acc (mk_responses T P itemss)
          = PaginationResult.aborted n e r := by
  intro itemss
  induction itemss with
  | nil =>
    intro cp total0 acc _ _ hmis
    obtain ⟨k, hk, _⟩ := hmis
    exact absurd hk (by simp)
  | cons items rest ih =>
    intro cp total0 acc hlen htot hmis
    have htotT : (if cp = 1 then T else total0) = T := by
      rcases htot with h | h <;> simp [h]
    rw [fetch_pages_loop_mk_cons, htotT]
    by_cases hne : items.length ≠ expected_count T P cp
    · exact ⟨cp, expected_count T P cp, items.length, if_pos hne⟩
    · push_neg at hne
      rw [if_neg (by simp [hne])]
      by_cases hcp : cp = P
      · exfalso
        have hrest : rest.length = 0 := by
          simp only [List.length_cons] at hlen
          omega
        obtain ⟨k, hk, hkne⟩ := hmis
        have hk0 : k = 0 := by
          simp only [List.length_cons, hrest] at hk
          omega
        subst hk0
        simp only [List.getD_cons_zero, Nat.add_zero] at hkne
        exact hkne hne
      · rw [if_neg hcp]
        have hstep : ∃ k, k < rest.length ∧
            (rest.getD k []).length ≠ expected_count T P (cp + 1 + k) := by
          obtain ⟨k, hk, hkne⟩ := hmis
          cases k with
          | zero =>
            exfalso
            simp only [List.getD_cons_zero, Nat.add_zero] at hkne
            exact hkne hne
          | succ k =>
            refine ⟨k, ?_, ?_⟩
            · simp only [List.length_cons] at hk
              omega
            · simp only [List.getD_cons_succ] at hkne
              have harith : cp + (k + 1) = cp + 1 + k := by omega
              rw [harith] at hkne
              exact hkne
        exact ih (cp + 1) T (acc ++ items)
          (by simp only [List.length_cons] at hlen; omega)
          (Or.inr rfl) hstep

/-- Claim C2: for every paginated full listing, if any page's returned
item count differs from the count `_download_all_photos` expects for that
page (full batch for every page except the reported last, and
`total % NUM_PHOTOS_PER_BATCH` for the last — including totals that are an
exact multiple of the batch size, whose expected last-page count is 0),
the run aborts inside the loop and the deletion stage never runs: the
model's deletion count is 0 whatever `_delete_unknown_files` would have
deleted. -/
theorem pagination_mismatch_aborts (prune : List PhotoRec → Nat)
    (T P : Nat) (itemss : List (List PhotoRec))
    (hlen : itemss.length = P)
    (hmis : ∃ k, k < itemss.length ∧
      (itemss.getD k []).length ≠ expected_count T P (1 + k)) :
    ∃ n e r,
      download_all_photos_model prune (mk_responses T P itemss)
        = (PaginationResult.aborted n e r, 0) := by
  obtain ⟨n, e, r, h⟩ := loop_abort_of_mismatch T P itemss 1 0 []
    (by omega) (Or.inl rfl) hmis
  exact ⟨n, e, r, by unfold download_all_photos_model; rw [h]⟩

/-- Witness for C2, exercising the exact-multiple case: a listing whose
reported total is exactly one batch (500) on its reported single page, but
returning 2 items, aborts — the code expects `500 % 500 = 0` items for the
last page — and the deletion count stays 0. -/
theorem pagination_mismatch_aborts_witness :
    (([[(default : PhotoRec), default]] : List (List PhotoRec)).length = 1) ∧
    ∃ n e r,
      download_all_photos_model (fun _ => 37)
          (mk_responses 500 1 [[(default : PhotoRec), default]])
        = (PaginationResult.aborted n e r, 0) :=
  ⟨by decide,
    pagination_mismatch_aborts (fun _ => 37) 500 1 [[default, default]]
      (by decide) ⟨0, by decide, by decide⟩⟩

/-- Outcome of one `_download_photo` invocation as its caller observes it:
`ok` (download succeeded or was skipped), `videoFail` (a raised
`VideoDownloadError`, lines 498-501), `photoFail` (the `sys.exit(1)` on a
failed photo transport, lines 503-506). -/
inductive ItemOutcome where
  | ok
  | videoFail
  | photoFail
deriving DecidableEq, Repr

/-- Embedding of the transport-failure branch of `_download_photo`
(lines 496-506): a failed request raises `VideoDownloadError` for a video
and exits the run for a photo. -/
def download_photo_transport (requestOk : Bool) (media : Media) : ItemOutcome :=
  if requestOk then ItemOutcome.ok
  else
    match media with
    | Media.video => ItemOutcome.videoFail
    | Media.photo => ItemOutcome.photoFail

/-- How a reconciliation pass ends with respect to download errors:
`fatalExit` models a `sys.exit(1)` raised mid-loop (photo failure),
`errorReportExit n` models the photostream pass's aggregate report of `n`
collected video errors followed by `sys.exit(1)` (lines 419-427), and
`completed` means the pass finished and the run continues. -/
inductive PassResult where
  | fatalExit
  | errorReportExit (collected : Nat)
  | completed
deriving DecidableEq, Repr

/-- Error handling of the photostream download loop of
`_download_all_photos` (lines 405-427): `VideoDownloadError` is appended
to `download_errors`; after the loop a non-empty error list is reported in
aggregate and the run exits with status 1. -/
def photostream_download_errors (collected : Nat) :
    List ItemOutcome → PassResult
  | [] =>
    if collected = 0 then PassResult.completed
    else PassResult.errorReportExit collected
  | ItemOutcome.ok :: rest => photostream_download_errors collected rest
  | ItemOutcome.videoFail :: rest =>
      photostream_download_errors (collected + 1) rest
  | ItemOutcome.photoFail :: _ => PassResult.fatalExit

/-- Error handling of the album-membership download loop of
`_mirror_album` (lines 595-603): `except VideoDownloadError as e: pass` —
the error is silently discarded, nothing is collected or reported. -/
def mirror_album_download_errors : List ItemOutcome → PassResult
  | [] => PassResult.completed
  | ItemOutcome.ok :: rest => mirror_album_download_errors rest
  | ItemOutcome.videoFail :: rest => mirror_album_download_errors rest
  | ItemOutcome.photoFail :: _ => PassResult.fatalExit

/-- Error handling of the download loop of `_create_not_in_any_album_dir`
(lines 683-691): identical to the album pass, `VideoDownloadError` is
silently discarded. -/
def not_in_any_album_download_errors : List ItemOutcome → PassResult
  | [] => PassResult.completed
  | ItemOutcome.ok :: rest => not_in_any_album_download_errors rest
  | ItemOutcome.videoFail :: rest => not_in_any_album_download_errors rest
  | ItemOutcome.photoFail :: _ => PassResult.fatalExit

/-- Number of video transport failures in a list of item outcomes. -/
def count_video_fails : List ItemOutcome → Nat
  | [] => 0
  | ItemOutcome.videoFail :: rest => count_video_fails rest + 1
  | _ :: rest => count_video_fails rest

/-- Counterexample for claim C5: a video transport failure in the album
pass (and likewise in the "not in any album" pass) is silently swallowed —
the pass completes with no collected or reported error — and in the
photostream pass the collected errors are reported at the end of that pass
followed by `sys.exit(1)`, aborting the rest of the reconciliation.  The
claim says every pass collects video failures and reports them at the end
of the run without aborting the remaining reconciliation. -/
theorem video_error_silently_dropped_in_album_pass :
    download_photo_transport false Media.video = ItemOutcome.videoFail ∧
    mirror_album_download_errors [ItemOutcome.videoFail]
      = PassResult.completed ∧
    not_in_any_album_download_errors [ItemOutcome.videoFail]
      = PassResult.completed ∧
    photostream_download_errors 0 [ItemOutcome.videoFail]
      = PassResult.errorReportExit 1 := by
  decide

theorem photostream_download_errors_fatal (outs : List ItemOutcome)
    (h : ItemOutcome.photoFail ∈ outs) :
    ∀ c, photostream_download_errors c outs = PassResult.fatalExit := by
  induction outs with
  | nil => cases h
  | cons o rest ih =>
    intro c
    cases o with
    | ok =>
      have : ItemOutcome.photoFail ∈ rest := by
        rcases List.mem_cons.mp h with h | h
        · simp at h
        · exact h
      exact ih this c
    | videoFail =>
      have : ItemOutcome.photoFail ∈ rest := by
        rcases List.mem_cons.mp h with h | h
        · simp at h
        · exact h
      exact ih this (c + 1)
    | photoFail => rfl

theorem photostream_download_errors_no_fatal (outs : List ItemOutcome)
    (h : ItemOutcome.photoFail ∉ outs) :
    ∀ c, photostream_download_errors c outs =
      if c + count_video_fails outs = 0 then PassResult.completed
      else PassResult.errorReportExit (c + count_video_fails outs) := by
  induction outs with
  | nil => intro c; simp [photostream_download_errors, count_video_fails]
  | cons o rest ih =>
    intro c
    cases o with
    | ok =>
      have hrest : ItemOutcome.photoFail ∉ rest := fun hm => h (List.mem_cons_of_mem _ hm)
      simpa [photostream_download_errors, count_video_fails] using ih hrest c
    | videoFail =>
      have hrest : ItemOutcome.photoFail ∉ rest := fun hm => h (List.mem_cons_of_mem _ hm)
      have := ih hrest (c + 1)
      simp only [photostream_download_errors, count_video_fails, this]
      have harith : c + 1 + count_video_fails rest
          = c + (count_video_fails rest + 1) := by omega
      rw [harith]
    | photoFail => exact absurd (List.mem_cons_self _ _) h

theorem mirror_album_download_errors_cases (outs : List ItemOutcome) :
    (ItemOutcome.photoFail ∈ outs →
      mirror_album_download_errors outs = PassResult.fatalExit) ∧
    (ItemOutcome.photoFail ∉ outs →
      mirror_album_download_errors outs = PassResult.completed) := by
  induction outs with
  | nil => exact ⟨fun h => absurd h (List.not_mem_nil _), fun _ => rfl⟩
  | cons o rest ih =>
    cases o with
    | ok =>
      refine ⟨fun h => ?_, fun h => ?_⟩
      · rcases List.mem_cons.mp h with h | h
        · simp at h
        · exact ih.1 h
      · exact ih.2 (fun hm => h (List.mem_cons_of_mem _ hm))
    | videoFail =>
      refine ⟨fun h => ?_, fun h => ?_⟩
      · rcases List.mem_cons.mp h with h | h
        · simp at h
        · exact ih.1 h
      · exact ih.2 (fun hm => h (List.mem_cons_of_mem _ hm))
    | photoFail =>
      exact ⟨fun _ => rfl, fun h => absurd (List.mem_cons_self _ _) h⟩

theorem not_in_any_album_download_errors_eq (outs : List ItemOutcome) :
    not_in_any_album_download_errors outs = mirror_album_download_errors outs := by
  induction outs with
  | nil => rfl
  | cons o rest ih =>
    cases o with
    | ok => simpa [not_in_any_album_download_errors, mirror_album_download_errors] using ih
    | videoFail => simpa [not_in_any_album_download_errors, mirror_album_download_errors] using ih
    | photoFail => rfl

/-- Claim C5 as amended: a photo transport failure is fatal to the run in
every pass; a video transport failure in the photostream pass is collected
and reported in aggregate at the end of that pass, after which the run
exits with an error (so the remaining reconciliation does not run); video
transport failures in the album and "not in any album" passes are
silently discarded and those passes complete with nothing collected or
reported. -/
theorem transport_failure_handling (outs : List ItemOutcome) :
    (ItemOutcome.photoFail ∈ outs →
      photostream_download_errors 0 outs = PassResult.fatalExit ∧
      mirror_album_download_errors outs = PassResult.fatalExit ∧
      not_in_any_album_download_errors outs = PassResult.fatalExit) ∧
    (ItemOutcome.photoFail ∉ outs →
      mirror_album_download_errors outs = PassResult.completed ∧
      not_in_any_album_download_errors outs = PassResult.completed ∧
      (count_video_fails outs = 0 →
        photostream_download_errors 0 outs = PassResult.completed) ∧
      (count_video_fails outs ≠ 0 →
        photostream_download_errors 0 outs
          = PassResult.errorReportExit (count_video_fails outs))) := by
  refine ⟨fun h => ⟨photostream_download_errors_fatal outs h 0,
      (mirror_album_download_errors_cases outs).1 h,
      (not_in_any_album_download_errors_eq outs).trans
        ((mirror_album_download_errors_cases outs).1 h)⟩,
    fun h => ⟨(mirror_album_download_errors_cases outs).2 h,
      (not_in_any_album_download_errors_eq outs).trans
        ((mirror_album_download_errors_cases outs).2 h), ?_, ?_⟩⟩
  · intro hc
    simpa [hc] using photostream_download_errors_no_fatal outs h 0
  · intro hc
    have := photostream_download_errors_no_fatal outs h 0
    simp only [Nat.zero_add] at this
    rw [this, if_neg hc]

/-- Witness for the amended C5 at a concrete outcome list: one failing
video makes the album pass complete silently while the photostream pass
ends the run with an aggregate report of 1 error; one failing photo is
fatal in every pass. -/
theorem transport_failure_handling_witness :
    (mirror_album_download_errors [ItemOutcome.videoFail]
        = PassResult.completed ∧
      photostream_download_errors 0 [ItemOutcome.videoFail]
        = PassResult.errorReportExit 1) ∧
    photostream_download_errors 0 [ItemOutcome.ok, ItemOutcome.photoFail]
      = PassResult.fatalExit := by
  refine ⟨⟨((transport_failure_handling [ItemOutcome.videoFail]).2 (by decide)).1, ?_⟩,
    ((transport_failure_handling [ItemOutcome.ok, ItemOutcome.photoFail]).1
      (by decide)).1⟩
  have h := ((transport_failure_handling [ItemOutcome.videoFail]).2
    (by decide)).2.2.2 (by decide)
  simpa using h

/-- Result of `_delete_unknown_files` (lines 884-918): either the
surviving directory entries together with the number of deleted entries,
or the `sys.exit(1)` taken when a deletion fails (lines 914-916). -/
inductive PruneOutcome where
  | pruned (remaining : List String) (count : Nat)
  | fatalExit
deriving DecidableEq, Repr

/-- The unknown entries of a directory,
`set(curr_entries) - set(known)` (line 903), as the sublist of `entries`
not contained in `known`. -/
def unknown_entries (entries known : List String) : List String :=
  entries.filter (fun e => !known.contains e)

/-- The deletion loop of `_delete_unknown_files` (lines 904-916): delete
each unknown entry in turn (`shutil.rmtree` for a directory, `os.remove`
otherwise — `canDelete` says whether the deletion succeeds), counting
deletions; a failed deletion exits the run. -/
def prune_loop (canDelete : String → Bool) :
    List String → List String → Nat → PruneOutcome
  | [], remaining, count => PruneOutcome.pruned remaining count
  | e :: rest, remaining, count =>
    if canDelete e then prune_loop canDelete rest (remaining.erase e) (count + 1)
    else PruneOutcome.fatalExit

/-- Embedding of `_delete_unknown_files(rootdir, known, knowntype)`
(lines 884-918): return 0 deletions when the root directory does not
exist (line 893) or the `--delete-unknown` option is off (line 897);
otherwise run the deletion loop over the unknown entries. -/
def delete_unknown_files (canDelete : String → Bool)
    (isDir delete_unknown : Bool) (entries known : List String) :
    PruneOutcome :=
  if !isDir then PruneOutcome.pruned entries 0
  else if !delete_unknown then PruneOutcome.pruned entries 0
  else prune_loop canDelete (unknown_entries entries known) entries 0

theorem prune_loop_all (canDelete : String → Bool) (us : List String) :
    ∀ (remaining : List String) (c : Nat),
      (∀ e ∈ us, canDelete e = true) →
      prune_loop canDelete us remaining c
        = PruneOutcome.pruned (us.foldl List.erase remaining) (c + us.length) := by
  induction us with
  | nil => intro remaining c _; simp [prune_loop]
  | cons u rest ih =>
    intro remaining c h
    have hu : canDelete u = true := h u (List.mem_cons_self _ _)
    have hrest : ∀ e ∈ rest, canDelete e = true :=
      fun e he => h e (List.mem_cons_of_mem _ he)
    simp only [prune_loop, hu, if_true, List.foldl_cons, List.length_cons]
    rw [ih (remaining.erase u) (c + 1) hrest]
    congr 1
    omega

theorem prune_loop_fatal (canDelete : String → Bool) (us : List String) :
    ∀ (remaining : List String) (c : Nat),
      (∃ e ∈ us, canDelete e = false) →
      prune_loop canDelete us remaining c = PruneOutcome.fatalExit := by
  induction us with
  | nil =>
    intro remaining c h
    obtain ⟨e, he, _⟩ := h
    exact absurd he (List.not_mem_nil _)
  | cons u rest ih =>
    intro remaining c h
    by_cases hu : canDelete u = true
    · obtain ⟨e, he, hce⟩ := h
      have herest : e ∈ rest := by
        rcases List.mem_cons.mp he with he | he
        · rw [he] at hce
          rw [hu] at hce
          cases hce
        · exact he
      simp only [prune_loop, hu, if_true]
      exact ih (remaining.erase u) (c + 1) ⟨e, herest, hce⟩
    · simp only [prune_loop, Bool.not_eq_true] at hu
      simp [prune_loop, hu]

theorem foldl_erase_cons_of_notmem (us : List String) :
    ∀ (a : String) (l : List String), a ∉ us →
      us.foldl List.erase (a :: l) = a :: us.foldl List.erase l := by
  induction us with
  | nil => intro a l _; rfl
  | cons u rest ih =>
    intro a l h
    have hau : a ≠ u := fun hc => h (hc ▸ List.mem_cons_self _ _)
    have harest : a ∉ rest := fun hm => h (List.mem_cons_of_mem _ hm)
    simp only [List.foldl_cons]
    rw [List.erase_cons_tail (by simpa using hau)]
    exact ih a (l.erase u) harest

theorem foldl_erase_filter (l : List String) (p : String → Bool)
    (h : l.Nodup) :
    (l.filter (fun e => !p e)).foldl List.erase l = l.filter p := by
  induction l with
  | nil => rfl
  | cons a t ih =>
    have hat : a ∉ t := (List.nodup_cons.mp h).1
    have ht : t.Nodup := (List.nodup_cons.mp h).2
    by_cases hpa : p a = true
    · have hfa : (fun e => !p e) a = false := by simp [hpa]
      rw [List.filter_cons_of_neg (by simp [hpa])]
      have hanot : a ∉ t.filter (fun e => !p e) :=
        fun hm => hat (List.mem_of_mem_filter hm)
      rw [foldl_erase_cons_of_notmem _ a t hanot, ih ht,
        List.filter_cons_of_pos hpa]
    · have hpa' : p a = false := by
        cases hp : p a
        · rfl
        · exact absurd hp hpa
      rw [List.filter_cons_of_pos (by simp [hpa']), List.foldl_cons,
        List.erase_cons_head, ih ht, List.filter_cons_of_neg (by simp [hpa'])]

/-- Claim C9: `_delete_unknown_files` is a no-op returning 0 when the
directory does not exist or pruning is disabled; otherwise, when every
unknown entry can be deleted, it deletes exactly the entries not in the
known set (the survivors are precisely the known entries, so known
entries are never touched) and returns the count of deleted entries; and
any deletion failure is fatal to the run. -/
theorem delete_unknown_files_spec (canDelete : String → Bool)
    (isDir delete_unknown : Bool) (entries known : List String)
    (hnd : entries.Nodup) :
    ((isDir = false ∨ delete_unknown = false) →
        delete_unknown_files canDelete isDir delete_unknown entries known
          = PruneOutcome.pruned entries 0) ∧
    ((∀ e ∈ unknown_entries entries known, canDelete e = true) →
        delete_unknown_files canDelete true true entries known
          = PruneOutcome.pruned (entries.filter (fun e => known.contains e))
              (unknown_entries entries known).length) ∧
    ((∃ e ∈ unknown_entries entries known, canDelete e = false) →
        delete_unknown_files canDelete true true entries known
          = PruneOutcome.fatalExit) := by
  refine ⟨fun h => ?_, fun h => ?_, fun h => ?_⟩
  · unfold delete_unknown_files
    rcases h with h | h <;> simp [h]
  · unfold delete_unknown_files
    simp only [Bool.not_true, Bool.false_eq_true, if_false]
    rw [prune_loop_all canDelete (unknown_entries entries known) entries 0 h]
    rw [show unknown_entries entries known
        = entries.filter (fun e => !known.contains e) from rfl]
    rw [foldl_erase_filter entries (fun e => known.contains e) hnd]
    simp
  · unfold delete_unknown_files
    simp only [Bool.not_true, Bool.false_eq_true, if_false]
    exact prune_loop_fatal canDelete (unknown_entries entries known) entries 0 h

/-- Witness for C9 at concrete directories: pruning disabled is a no-op
returning 0; with pruning enabled the two stale entries are deleted, the
known entry survives, and the count is 2; an undeletable stale entry is
fatal. -/
theorem delete_unknown_files_spec_witness :
    (delete_unknown_files (fun _ => true) true false
        ["a.jpg", "stale"] ["a.jpg"]
      = PruneOutcome.pruned ["a.jpg", "stale"] 0) ∧
    (delete_unknown_files (fun _ => true) true true
        ["a.jpg", "stale", "stale2"] ["a.jpg"]
      = PruneOutcome.pruned ["a.jpg"] 2) ∧
    (delete_unknown_files (fun e => !(e == "stale")) true true
        ["a.jpg", "stale"] ["a.jpg"]
      = PruneOutcome.fatalExit) := by
  refine ⟨(delete_unknown_files_spec (fun _ => true) true false
      ["a.jpg", "stale"] ["a.jpg"] (by decide)).1 (Or.inr rfl), ?_, ?_⟩
  · have h := (delete_unknown_files_spec (fun _ => true) true true
      ["a.jpg", "stale", "stale2"] ["a.jpg"] (by decide)).2.1 (by decide)
    simpa using h
  · exact (delete_unknown_files_spec (fun e => !(e == "stale")) true true
      ["a.jpg", "stale"] ["a.jpg"] (by decide)).2.2
      ⟨"stale", by decide, by decide⟩

/-- Embedding of `_write_json_if_different(filename, data)` (lines
866-882): skip the write, returning the store unchanged and `False`, when
`_is_file_different` reports the stored document equal to `data`;
otherwise stage `data` into the temp file, rename it over `filename`, and
return `True`.  The staging itself is modelled step by step for claim C8;
here the completed write is one store update. -/
def write_json_if_different {α : Type} [DecidableEq α]
    (fs : String → Option α) (filename : String) (data : α) :
    (String → Option α) × Bool :=
  if is_file_different fs filename data = false then (fs, false)
  else (fun p => if p = filename then some data else fs p, true)

/-- Embedding of `_set_timestamp_if_different(photo_datetime, filename)`
(lines 848-864): compare the resolved timestamp with the file's current
mtime and touch the file (returning `True`) only when they differ.
Timestamps are integers (`time.mktime` seconds); the `OverflowError`
branch cannot arise in the unbounded model. -/
def set_timestamp_if_different (timestamp : Int)
    (mtimes : String → Int) (filename : String) : (String → Int) × Bool :=
  if timestamp ≠ mtimes filename then
    (fun p => if p = filename then timestamp else mtimes p, true)
  else (mtimes, false)

/-- The media-kind filter common to the three download loops
(lines 408-409, 591-592 and 679-680): keep a photo unless photos are
ignored, keep a video unless videos are ignored. -/
def media_selected (ignPhotos ignVideos : Bool) (p : PhotoRec) : Bool :=
  (p.media == Media.photo && !ignPhotos) || (p.media == Media.video && !ignVideos)

/-- Effect of one run of `_create_not_in_any_album_dir` (lines 653-704)
on the "Not in any album" directory. -/
structure NotInAnyAlbumRun where
  dirDeleted : Bool
  dirCreated : Bool
  symlinks : List String
deriving DecidableEq, Repr

/-- Embedding of `_create_not_in_any_album_dir` (lines 653-704): the
directory is unconditionally removed (line 665) and recreated empty
(line 666) on every run, then one symlink is created per selected
unassigned item (lines 697-702).  `photos` is the concatenation of the
pages the provider reports as in no set; `bn` resolves an item's
photostream basename (`_get_photo_basename`). -/
def create_not_in_any_album_dir (bn : PhotoRec → String)
    (ignPhotos ignVideos : Bool) (photos : List PhotoRec) :
    NotInAnyAlbumRun :=
  { dirDeleted := true
    dirCreated := true
    symlinks := (photos.filter (media_selected ignPhotos ignVideos)).map bn }

/-- Counterexample for claim C7: a second run against an unchanged remote
is not write-free.  With a single unassigned item, the "Not in any album"
pass deletes and recreates its directory and re-creates the item's
symlink on every run — these file writes happen on the second run even
though nothing changed remotely.  The claim says the second run performs
zero file writes. -/
theorem second_run_rewrites_not_in_any_album :
    create_not_in_any_album_dir (fun p => p.id ++ "." ++ p.originalformat)
        false false
        [{ (default : PhotoRec) with id := "9", originalformat := "jpg" }]
      = { dirDeleted := true, dirCreated := true, symlinks := ["9.jpg"] } ∧
    (["9.jpg"] : List String) ≠ [] := by
  constructor
  · rfl
  · decide

/-- Claim C7 as amended: for every entity whose freshly fetched record is
structurally equal to its stored sidecar, the second run rewrites
nothing for that entity — the sidecar write is skipped, the content
fetch is skipped, and a timestamp equal to the stored one is not touched
— but the run as a whole is not write-free: the "Not in any album"
directory is deleted and recreated with fresh symlinks on every run,
including a second run against an unchanged remote. -/
theorem second_run_idempotence (fs : String → Option PhotoRec)
    (mtimes : String → Int) (filename : String) (rec : PhotoRec) (ts : Int)
    (bn : PhotoRec → String) (photos : List PhotoRec) :
    (fs filename = some rec →
      write_json_if_different fs filename rec = (fs, false)) ∧
    (mtimes filename = ts →
      set_timestamp_if_different ts mtimes filename = (mtimes, false)) ∧
    should_download_photo true (some rec) rec = false ∧
    (create_not_in_any_album_dir bn false false photos).dirDeleted = true ∧
    (photos.filter (media_selected false false) ≠ [] →
      (create_not_in_any_album_dir bn false false photos).symlinks ≠ []) := by
  refine ⟨fun h => ?_, fun h => ?_, ?_, rfl, fun h => ?_⟩
  · unfold write_json_if_different
    rw [if_pos ((is_file_different_false_iff fs filename rec).1.mpr h)]
  · unfold set_timestamp_if_different
    rw [if_neg (by rw [h]; exact fun hc => hc rfl)]
  · unfold should_download_photo
    simp
  · unfold create_not_in_any_album_dir
    simpa using h

/-- Witness for the amended C7 at concrete inputs: a store already holding
the fresh record skips the sidecar write, a matching mtime skips the
touch, a matching sidecar skips the fetch, while the "Not in any album"
pass still produces a symlink write for its one unassigned item. -/
theorem second_run_idempotence_witness :
    write_json_if_different (fun _ => some (default : PhotoRec))
        "9.jpg.metadata" default
      = (fun _ => some (default : PhotoRec), false) ∧
    set_timestamp_if_different 5 (fun _ => (5 : Int)) "9.jpg"
      = (fun _ => (5 : Int), false) ∧
    should_download_photo true (some default) default = false ∧
    (create_not_in_any_album_dir PhotoRec.id false false [default]).symlinks
      ≠ [] := by
  obtain ⟨h1, h2, h3, _, h5⟩ := second_run_idempotence
    (fun _ => some (default : PhotoRec)) (fun _ => (5 : Int)) "9.jpg.metadata"
    default 5 PhotoRec.id [default]
  exact ⟨h1 rfl, by
      obtain ⟨_, h2, _, _, _⟩ := second_run_idempotence
        (fun _ => some (default : PhotoRec)) (fun _ => (5 : Int)) "9.jpg"
        default 5 PhotoRec.id [default]
      exact h2 rfl,
    h3, h5 (by decide)⟩

/-- The files a staged write touches: the shared temp file
`<destdir>/tmp` and one destination path.  Contents are byte lists;
`none` is an absent file. -/
structure StagedFS where
  tmp : Option (List Nat)
  dest : Option (List Nat)
deriving DecidableEq, Repr

/-- One primitive step of the temp-then-rename discipline used by both the
content download (lines 508-518) and `_write_json_if_different`
(lines 877-881): open the temp file for writing (truncating it), append
one chunk to it, or `os.rename` the temp file over the destination —
atomic: the destination acquires the temp file's complete contents in the
same step in which the temp file disappears. -/
inductive WriteStep where
  | openTmp
  | writeChunk (chunk : List Nat)
  | rename
deriving DecidableEq, Repr

def write_step (fs : StagedFS) : WriteStep → StagedFS
  | WriteStep.openTmp => { fs with tmp := some [] }
  | WriteStep.writeChunk c => { fs with tmp := fs.tmp.map (fun t => t ++ c) }
  | WriteStep.rename => { tmp := none, dest := fs.tmp }

/-- The step sequence of one staged write of `chunks`: open the temp
file, write each chunk in turn (lines 510-513, or the single
`json.dump` at line 880), then rename over the destination (line 518 /
line 881). -/
def write_steps (chunks : List (List Nat)) : List WriteStep :=
  WriteStep.openTmp :: chunks.map WriteStep.writeChunk ++ [WriteStep.rename]

/-- Run an interrupted or complete staged write: execute a prefix of its
steps from the given filesystem state. -/
def run_write_steps (fs : StagedFS) (steps : List WriteStep) : StagedFS :=
  steps.foldl write_step fs

theorem dest_unchanged_of_no_rename (steps : List WriteStep) :
    ∀ fs : StagedFS, (∀ s ∈ steps, s ≠ WriteStep.rename) →
      (run_write_steps fs steps).dest = fs.dest := by
  induction steps with
  | nil => intro fs _; rfl
  | cons s rest ih =>
    intro fs h
    have hs : s ≠ WriteStep.rename := h s (List.mem_cons_self _ _)
    have hrest : ∀ x ∈ rest, x ≠ WriteStep.rename :=
      fun x hx => h x (List.mem_cons_of_mem _ hx)
    have hdest : (write_step fs s).dest = fs.dest := by
      cases s with
      | openTmp => rfl
      | writeChunk c => rfl
      | rename => exact absurd rfl hs
    calc (run_write_steps fs (s :: rest)).dest
        = (run_write_steps (write_step fs s) rest).dest := rfl
      _ = (write_step fs s).dest := ih (write_step fs s) hrest
      _ = fs.dest := hdest

theorem run_write_chunks (chunks : List (List Nat)) :
    ∀ fs : StagedFS,
      run_write_steps fs (chunks.map WriteStep.writeChunk)
        = { fs with tmp := fs.tmp.map (fun t => t ++ chunks.flatten) } := by
  induction chunks with
  | nil =>
    intro fs
    cases fs with
    | mk tmp dest => cases tmp <;> simp [run_write_steps]
  | cons c cs ih =>
    intro fs
    have hstep : run_write_steps fs ((c :: cs).map WriteStep.writeChunk)
        = run_write_steps (write_step fs (WriteStep.writeChunk c))
            (cs.map WriteStep.writeChunk) := rfl
    rw [hstep, ih]
    cases fs with
    | mk tmp dest =>
      cases tmp <;>
        simp [write_step, List.flatten_cons, List.append_assoc]

/-- Claim C8: a staged (temp-file-then-rename) write interrupted after any
proper prefix of its steps leaves the destination exactly as it was —
absent if it was absent, the complete prior version otherwise — and the
completed write leaves the destination holding the complete new contents.
Both the content download and the sidecar write use this discipline. -/
theorem staged_write_atomic (chunks : List (List Nat)) (fs : StagedFS) :
    (∀ k, k < (write_steps chunks).length →
      (run_write_steps fs ((write_steps chunks).take k)).dest = fs.dest) ∧
    (run_write_steps fs (write_steps chunks)).dest = some chunks.flatten := by
  constructor
  · intro k hk
    apply dest_unchanged_of_no_rename
    intro s hs
    have hlen : (write_steps chunks).length
        = (WriteStep.openTmp :: chunks.map WriteStep.writeChunk).length + 1 := by
      simp [write_steps]
    have hk' : k ≤ (WriteStep.openTmp :: chunks.map WriteStep.writeChunk).length := by
      omega
    have htake : (write_steps chunks).take k
        = (WriteStep.openTmp :: chunks.map WriteStep.writeChunk).take k := by
      have : write_steps chunks
          = (WriteStep.openTmp :: chunks.map WriteStep.writeChunk)
              ++ [WriteStep.rename] := by
        simp [write_steps]
      rw [this, List.take_append_of_le_length hk']
    rw [htake] at hs
    have hmem : s ∈ WriteStep.openTmp :: chunks.map WriteStep.writeChunk :=
      List.take_subset k _ hs
    rcases List.mem_cons.mp hmem with h | h
    · rw [h]; intro hc; cases hc
    · obtain ⟨c, _, hc⟩ := List.mem_map.mp h
      rw [← hc]; intro hcon; cases hcon
  · have hsplit : write_steps chunks
        = (WriteStep.openTmp :: chunks.map WriteStep.writeChunk)
            ++ [WriteStep.rename] := by
      simp [write_steps]
    rw [hsplit]
    unfold run_write_steps
    rw [List.foldl_append]
    have h1 : (WriteStep.openTmp :: chunks.map WriteStep.writeChunk).foldl
        write_step fs
        = { tmp := some chunks.flatten, dest := fs.dest } := by
      have : (WriteStep.openTmp :: chunks.map WriteStep.writeChunk).foldl
          write_step fs
          = run_write_steps { fs with tmp := some [] }
              (chunks.map WriteStep.writeChunk) := rfl
      rw [this, run_write_chunks]
      simp
    rw [h1]
    rfl

/-- Witness for C8: interrupting the two-chunk write after 2 of its 4
steps leaves the destination holding its prior contents `[9]`; the
completed write leaves it holding the full new contents `[1, 2, 3]`. -/
theorem staged_write_atomic_witness :
    (run_write_steps ⟨some [7], some [9]⟩
        ((write_steps [[1, 2], [3]]).take 2)).dest = some [9] ∧
    (run_write_steps ⟨some [7], some [9]⟩
        (write_steps [[1, 2], [3]])).dest = some [1, 2, 3] := by
  refine ⟨(staged_write_atomic [[1, 2], [3]] ⟨some [7], some [9]⟩).1 2
    (by decide), ?_⟩
  have h := (staged_write_atomic [[1, 2], [3]] ⟨some [7], some [9]⟩).2
  simpa using h

/-- A calendar datetime (year, month, day, hour, minute, second) — the
shape of every `datetime.datetime` value `get_photo_datetime` handles. -/
structure DateTime where
  year : Nat
  month : Nat
  day : Nat
  hour : Nat
  minute : Nat
  second : Nat
deriving DecidableEq, Repr

/-- Python datetime comparison `a < b`: lexicographic on the six
fields. -/
def DateTime.before (a b : DateTime) : Bool :=
  if a.year ≠ b.year then decide (a.year < b.year)
  else if a.month ≠ b.month then decide (a.month < b.month)
  else if a.day ≠ b.day then decide (a.day < b.day)
  else if a.hour ≠ b.hour then decide (a.hour < b.hour)
  else if a.minute ≠ b.minute then decide (a.minute < b.minute)
  else decide (a.second < b.second)

/-- Decimal value of a list of digit characters, most significant
first. -/
def digitsVal (cs : List Char) : Nat :=
  cs.foldl (fun a c => 10 * a + (c.toNat - '0'.toNat)) 0

/-- Gregorian leap-year rule, as Python's calendar uses it. -/
def leap_year (y : Nat) : Bool :=
  (y % 4 == 0 && !(y % 100 == 0)) || (y % 400 == 0)

/-- Days in a month, as Python's datetime validation uses it. -/
def days_in_month (y m : Nat) : Nat :=
  if m = 2 then (if leap_year y then 29 else 28)
  else if m = 4 ∨ m = 6 ∨ m = 9 ∨ m = 11 then 30
  else 31

/-- Model of `datetime.datetime.strptime(title, '%Y%m%d_%H%M%S')`
(line 159) for titles in the canonical fully zero-padded shape: exactly
4+2+2 digits, an underscore, then 2+2+2 digits, with calendar-valid
month, day (per month length and leap year), hour, minute and second.
`none` models the `ValueError` path (line 162).  Python's `strptime`
also accepts some unpadded variants of the same pattern; those
non-canonical shapes are outside this model and outside every concrete
input used below. -/
def strptime_title (s : String) : Option DateTime :=
  let cs := s.toList
  if cs.length == 15 && (cs.take 8).all Char.isDigit
      && (cs.getD 8 ' ' == '_') && (cs.drop 9).all Char.isDigit then
    let y := digitsVal (cs.take 4)
    let mo := digitsVal ((cs.drop 4).take 2)
    let d := digitsVal ((cs.drop 6).take 2)
    let hh := digitsVal ((cs.drop 9).take 2)
    let mi := digitsVal ((cs.drop 11).take 2)
    let ss := digitsVal ((cs.drop 13).take 2)
    if 1 ≤ mo ∧ mo ≤ 12 ∧ 1 ≤ d ∧ d ≤ days_in_month y mo
        ∧ hh ≤ 23 ∧ mi ≤ 59 ∧ ss ≤ 59 then
      some ⟨y, mo, d, hh, mi, ss⟩
    else none
  else none

/-- Model of `dateutil.parser.parse` applied to the provider's
`datetaken` field (lines 156 and 166), which the provider supplies in
the fixed shape `YYYY-MM-DD HH:MM:SS`; anything else raises, modelled as
`none` (the exception would escape `get_photo_datetime`). -/
def parse_datetaken (s : String) : Option DateTime :=
  let cs := s.toList
  if cs.length == 19 && (cs.take 4).all Char.isDigit
      && (cs.getD 4 ' ' == '-')
      && ((cs.drop 5).take 2).all Char.isDigit
      && (cs.getD 7 ' ' == '-')
      && ((cs.drop 8).take 2).all Char.isDigit
      && (cs.getD 10 ' ' == ' ')
      && ((cs.drop 11).take 2).all Char.isDigit
      && (cs.getD 13 ' ' == ':')
      && ((cs.drop 14).take 2).all Char.isDigit
      && (cs.getD 16 ' ' == ':')
      && ((cs.drop 17).take 2).all Char.isDigit then
    let y := digitsVal (cs.take 4)
    let mo := digitsVal ((cs.drop 5).take 2)
    let d := digitsVal ((cs.drop 8).take 2)
    let hh := digitsVal ((cs.drop 11).take 2)
    let mi := digitsVal ((cs.drop 14).take 2)
    let ss := digitsVal ((cs.drop 17).take 2)
    if 1 ≤ mo ∧ mo ≤ 12 ∧ 1 ≤ d ∧ d ≤ days_in_month y mo
        ∧ hh ≤ 23 ∧ mi ≤ 59 ∧ ss ≤ 59 then
      some ⟨y, mo, d, hh, mi, ss⟩
    else none
  else none

/-- Embedding of `get_photo_datetime(photo)` (lines 142-166).  The Python
function reads the wall clock — `parsed < datetime.datetime.now()` at
line 160 — so the embedding takes the current clock value as an explicit
argument:
1. if `datetakenunknown == "0"`, parse and return `datetaken`;
2. otherwise, if the title parses as `YYYYMMDD_HHMMSS` with year greater
   than 2000 and a value strictly before the current clock, return it;
3. otherwise parse and return `datetaken` anyway.
`none` models an exception escaping (unparseable `datetaken`). -/
def get_photo_datetime (now : DateTime) (photo : PhotoRec) :
    Option DateTime :=
  if photo.datetakenunknown == "0" then parse_datetaken photo.datetaken
  else
    match strptime_title photo.title with
    | some parsed =>
      if 2000 < parsed.year ∧ parsed.before now = true then some parsed
      else parse_datetaken photo.datetaken
    | none => parse_datetaken photo.datetaken

/-- The record used to refute claim C10's purity: unknown date-taken
flag, a title shaped like a datetime in year 2030, and a 2020
`datetaken`. -/
def clock_sensitive_photo : PhotoRec :=
  { id := "1", media := Media.photo, originalformat := "jpg",
    lastupdate := "100", title := "20300101_120000",
    datetaken := "2020-05-05 10:00:00", datetakenunknown := "1",
    extra := [] }

/-- Counterexample for claim C10: `get_photo_datetime` reads the wall
clock (line 160), so it is not a pure, deterministic function of the
input record.  The same record resolves to its `datetaken`
(2020-05-05 10:00:00) when the clock reads 2026-10-12 but to its title
date (2030-01-01 12:00:00) when the clock reads 2031-01-01 — two
invocations on the same record yield different results. -/
theorem get_photo_datetime_clock_dependent :
    get_photo_datetime ⟨2026, 10, 12, 0, 0, 0⟩ clock_sensitive_photo
      = some ⟨2020, 5, 5, 10, 0, 0⟩ ∧
    get_photo_datetime ⟨2031, 1, 1, 0, 0, 0⟩ clock_sensitive_photo
      = some ⟨2030, 1, 1, 12, 0, 0⟩ ∧
    get_photo_datetime ⟨2026, 10, 12, 0, 0, 0⟩ clock_sensitive_photo
      ≠ get_photo_datetime ⟨2031, 1, 1, 0, 0, 0⟩ clock_sensitive_photo := by
  decide

/-- Claim C10 as amended: captured-at resolution is a deterministic
function of the input record together with the current clock value, and
follows the fallback chain: (1) the provider's date-taken when the
unknown flag is clear; (2) a `YYYYMMDD_HHMMSS`-shaped title parsed as a
plausible past date — year after 2000 and strictly before the current
clock; (3) the provider's date-taken regardless of the unknown flag. -/
theorem get_photo_datetime_chain (now : DateTime) (photo : PhotoRec) :
    (photo.datetakenunknown = "0" →
      get_photo_datetime now photo = parse_datetaken photo.datetaken) ∧
    (photo.datetakenunknown ≠ "0" →
      ∀ parsed, strptime_title photo.title = some parsed →
        (2000 < parsed.year ∧ parsed.before now = true →
          get_photo_datetime now photo = some parsed) ∧
        (¬(2000 < parsed.year ∧ parsed.before now = true) →
          get_photo_datetime now photo = parse_datetaken photo.datetaken)) ∧
    (photo.datetakenunknown ≠ "0" → strptime_title photo.title = none →
      get_photo_datetime now photo = parse_datetaken photo.datetaken) := by
  refine ⟨fun h => ?_, fun h parsed hp => ⟨fun hc => ?_, fun hc => ?_⟩,
    fun h hn => ?_⟩
  · unfold get_photo_datetime
    rw [if_pos (by simp [h])]
  · unfold get_photo_datetime
    rw [if_neg (by simpa using h), hp]
    exact if_pos hc
  · unfold get_photo_datetime
    rw [if_neg (by simpa using h), hp]
    exact if_neg hc
  · unfold get_photo_datetime
    rw [if_neg (by simpa using h), hn]

/-- The spec's own worked example (section 8): unknown date-taken flag
and title `"20150101_120000"`. -/
def example_title_photo : PhotoRec :=
  { id := "2", media := Media.photo, originalformat := "jpg",
    lastupdate := "100", title := "20150101_120000",
    datetaken := "2019-03-03 08:00:00", datetakenunknown := "1",
    extra := [] }

/-- A record whose date-taken flag is known; the title is ignored. -/
def example_known_photo : PhotoRec :=
  { id := "3", media := Media.photo, originalformat := "jpg",
    lastupdate := "100", title := "20300101_120000",
    datetaken := "2020-05-05 10:00:00", datetakenunknown := "0",
    extra := [] }

/-- Witness for the amended C10, at the spec's example inputs: with the
unknown flag set and title `"20150101_120000"`, the resolved captured-at
is 2015-01-01 12:00:00; with the flag clear, the provider's value is used
regardless of the title. -/
theorem get_photo_datetime_chain_witness :
    get_photo_datetime ⟨2026, 10, 12, 0, 0, 0⟩ example_title_photo
      = some ⟨2015, 1, 1, 12, 0, 0⟩ ∧
    get_photo_datetime ⟨2026, 10, 12, 0, 0, 0⟩ example_known_photo
      = some ⟨2020, 5, 5, 10, 0, 0⟩ := by
  constructor
  · exact ((get_photo_datetime_chain ⟨2026, 10, 12, 0, 0, 0⟩
        example_title_photo).2.1 (by decide) ⟨2015, 1, 1, 12, 0, 0⟩
        (by decide)).1 ⟨by decide, by decide⟩
  · exact ((get_photo_datetime_chain ⟨2026, 10, 12, 0, 0, 0⟩
        example_known_photo).1 (by decide)).trans (by decide)

/-- Decimal digit characters of a natural number, most significant
first: a structurally transparent reference implementation used to
reason about `Nat.repr` (which Python's `str(i)` corresponds to). -/
def decDigits (n : Nat) : List Char :=
  if _h : n < 10 then [Nat.digitChar n]
  else decDigits (n / 10) ++ [Nat.digitChar (n % 10)]
decreasing_by exact Nat.div_lt_self (by omega) (by omega)

theorem decDigits_small {n : Nat} (h : n < 10) :
    decDigits n = [Nat.digitChar n] := by
  rw [decDigits, dif_pos h]

theorem decDigits_big {n : Nat} (h : ¬ n < 10) :
    decDigits n = decDigits (n / 10) ++ [Nat.digitChar (n % 10)] := by
  conv_lhs => rw [decDigits]
  rw [dif_neg h]

theorem toDigitsCore_eq_decDigits :
    ∀ (fuel n : Nat) (acc : List Char), n < fuel →
      Nat.toDigitsCore 10 fuel n acc = decDigits n ++ acc := by
  intro fuel
  induction fuel with
  | zero => intro n acc h; omega
  | succ f ih =>
    intro n acc h
    by_cases h10 : n / 10 = 0
    · have hn10 : n < 10 := by
        have := (Nat.div_eq_zero_iff (by omega : (0:Nat) < 10)).mp h10
        exact this
      show (if n / 10 = 0 then Nat.digitChar (n % 10) :: acc
        else Nat.toDigitsCore 10 f (n / 10) (Nat.digitChar (n % 10) :: acc))
          = decDigits n ++ acc
      rw [if_pos h10, decDigits_small hn10, Nat.mod_eq_of_lt hn10]
      rfl
    · have hge : ¬ n < 10 := by
        intro hlt
        exact h10 (Nat.div_eq_of_lt hlt)
      show (if n / 10 = 0 then Nat.digitChar (n % 10) :: acc
        else Nat.toDigitsCore 10 f (n / 10) (Nat.digitChar (n % 10) :: acc))
          = decDigits n ++ acc
      rw [if_neg h10]
      have hlt : n / 10 < f := by
        have h1 : n / 10 < n := Nat.div_lt_self (by omega) (by omega)
        omega
      rw [ih (n / 10) (Nat.digitChar (n % 10) :: acc) hlt,
        decDigits_big hge]
      simp [List.append_assoc]

/-- `Nat.repr` (and hence `toString` on `Nat`) produces exactly the
reference decimal digits. -/
theorem toString_nat_toList (n : Nat) : (toString n).toList = decDigits n := by
  show (Nat.toDigits 10 n).asString.toList = decDigits n
  have h : Nat.toDigits 10 n = Nat.toDigitsCore 10 (n + 1) n [] := rfl
  rw [show (Nat.toDigits 10 n).asString.toList = Nat.toDigits 10 n from rfl, h,
    toDigitsCore_eq_decDigits (n + 1) n [] (by omega), List.append_nil]

theorem decDigits_length_pos (n : Nat) : 0 < (decDigits n).length := by
  by_cases h : n < 10
  · rw [decDigits_small h]; simp
  · rw [decDigits_big h]; simp

theorem decDigits_length_mono :
    ∀ n m : Nat, m ≤ n → (decDigits m).length ≤ (decDigits n).length := by
  intro n
  induction n using Nat.strong_induction_on with
  | _ n ih =>
    intro m hmn
    by_cases hn : n < 10
    · have hm : m < 10 := lt_of_le_of_lt hmn hn
      rw [decDigits_small hn, decDigits_small hm]
      simp
    · by_cases hm : m < 10
      · rw [decDigits_small hm]
        have := decDigits_length_pos n
        simp only [List.length_singleton]
        omega
      · rw [decDigits_big hn, decDigits_big hm]
        simp only [List.length_append, List.length_singleton]
        have hdiv : m / 10 ≤ n / 10 := Nat.div_le_div_right hmn
        have hlt : n / 10 < n := Nat.div_lt_self (by omega) (by omega)
        have := ih (n / 10) hlt (m / 10) hdiv
        omega

theorem digitChar_ne_zero_char {k : Nat} (h1 : 1 ≤ k) (h2 : k < 10) :
    Nat.digitChar k ≠ '0' := by
  interval_cases k <;> decide

theorem digitChar_inj_lt {x y : Nat} (hx : x < 10) (hy : y < 10)
    (h : Nat.digitChar x = Nat.digitChar y) : x = y := by
  revert h
  interval_cases x <;> interval_cases y <;> decide

theorem decDigits_head_ne_zero :
    ∀ n : Nat, 1 ≤ n → ∀ c cs, decDigits n = c :: cs → c ≠ '0' := by
  intro n
  induction n using Nat.strong_induction_on with
  | _ n ih =>
    intro hn c cs hd
    by_cases h10 : n < 10
    · rw [decDigits_small h10] at hd
      cases hd
      exact digitChar_ne_zero_char hn h10
    · rw [decDigits_big h10] at hd
      obtain ⟨c0, cs0, hcons⟩ : ∃ c0 cs0, decDigits (n / 10) = c0 :: cs0 := by
        cases hh : decDigits (n / 10) with
        | nil =>
          have := decDigits_length_pos (n / 10)
          rw [hh] at this
          simp at this
        | cons c0 cs0 => exact ⟨c0, cs0, rfl⟩
      rw [hcons] at hd
      simp only [List.cons_append, List.cons.injEq] at hd
      have hdiv1 : 1 ≤ n / 10 := by
        have : ¬ n / 10 = 0 := by
          intro h0
          exact h10 ((Nat.div_eq_zero_iff (by omega : (0:Nat) < 10)).mp h0)
        omega
      have hdivlt : n / 10 < n := Nat.div_lt_self (by omega) (by omega)
      have := ih (n / 10) hdivlt hdiv1 c0 cs0 hcons
      rw [← hd.1]
      exact this

theorem decDigits_inj :
    ∀ a b : Nat, decDigits a = decDigits b → a = b := by
  intro a
  induction a using Nat.strong_induction_on with
  | _ a ih =>
    intro b h
    by_cases ha : a < 10
    · by_cases hb : b < 10
      · rw [decDigits_small ha, decDigits_small hb] at h
        simp only [List.cons.injEq] at h
        exact digitChar_inj_lt ha hb h.1
      · exfalso
        rw [decDigits_small ha, decDigits_big hb] at h
        have := congrArg List.length h
        simp only [List.length_singleton, List.length_append] at this
        have := decDigits_length_pos (b / 10)
        omega
    · by_cases hb : b < 10
      · exfalso
        rw [decDigits_big ha, decDigits_small hb] at h
        have := congrArg List.length h
        simp only [List.length_singleton, List.length_append] at this
        have := decDigits_length_pos (a / 10)
        omega
      · rw [decDigits_big ha, decDigits_big hb] at h
        have hinj := List.append_inj h (by
          have := congrArg List.length h
          simp only [List.length_append, List.length_singleton] at this
          omega)
        have hdiv : a / 10 = b / 10 := by
          have hlt : a / 10 < a := Nat.div_lt_self (by omega) (by omega)
          exact ih (a / 10) hlt (b / 10) hinj.1
        have hmod : a % 10 = b % 10 := by
          have h2 := hinj.2
          simp only [List.cons.injEq] at h2
          exact digitChar_inj_lt (Nat.mod_lt _ (by omega))
            (Nat.mod_lt _ (by omega)) h2.1
        omega

/-- Python's `str.zfill(width)` for the digit strings produced by
`str(i + 1)` (line 641): left-pad with `'0'` up to `width` (no-op when
the string is already at least that wide). -/
def zfill (width : Nat) (s : String) : String :=
  (List.replicate (width - s.length) '0').asString ++ s

/-- Embedding of `_get_photo_basename` for a photo (lines 779-783):
`'{id}.{originalformat}'`.  For a video (lines 785-814) the basename is
resolved from the local photostream contents or an HTTP HEAD redirect,
so the album theorems take the resolver as a function argument `bn`. -/
def get_photo_basename_photo (photo : PhotoRec) : String :=
  photo.id ++ "." ++ photo.originalformat

/-- A decoded album record as `_mirror_album` persists it into the album
metadata sidecar: `photos` holds the member id list (line 608) and the
version marker is stamped (line 618); everything else the provider
returned is carried opaquely in `extra` (the conditional `count_views`
deletion at lines 610-611 falls into that opaque remainder). -/
structure AlbumRec where
  id : String
  title : String
  photos : List String
  flickrmirrorer_album_metadata_version : Nat
  extra : List (String × String)
deriving DecidableEq, Repr

/-- Lines 606-618 of `_mirror_album`: replace the record's `photos` field
by the fetched member id list and set the version marker to 2. -/
def stamp_album (album : AlbumRec) (photos : List PhotoRec) : AlbumRec :=
  { album with
    photos := photos.map (fun p => p.id)
    flickrmirrorer_album_metadata_version := 2 }

/-- The symlink basenames `_mirror_album` creates during a rebuild
(lines 634-643): member `i` (0-based) is linked as
`str(i + 1).zfill(digits) + '_' + basename`, where `digits` is the
decimal width of the member count (line 636). -/
def album_symlink_names (bn : PhotoRec → String) (photos : List PhotoRec) :
    List String :=
  photos.enum.map (fun ip =>
    zfill (toString photos.length).length (toString (ip.1 + 1)) ++ "_"
      ++ bn ip.2)

/-- The on-disk state of one album directory: whether it exists, its
symlink entries, and the decoded metadata sidecar it contains. -/
structure AlbumDirState where
  present : Bool
  entries : List String
  metadata : Option AlbumRec
deriving DecidableEq, Repr

/-- Embedding of the rebuild decision and rebuild of `_mirror_album`
(lines 620-651), given the already-fetched, media-filtered member list:
stamp the album record; when the directory does not exist or
`_is_file_different` reports its metadata sidecar different from the
stamped record (line 625), delete the directory recursively, recreate it
empty, create the positionally numbered member symlinks, and write the
sidecar (lines 630-646); otherwise leave the directory untouched
(line 649).  Returns the new state and whether a rebuild happened. -/
def mirror_album (bn : PhotoRec → String) (photos : List PhotoRec)
    (albumIn : AlbumRec) (dir : AlbumDirState) : AlbumDirState × Bool :=
  let album := stamp_album albumIn photos
  if !dir.present
      || is_file_different (fun _ => dir.metadata) "metadata" album then
    ({ present := true, entries := album_symlink_names bn photos,
       metadata := some album }, true)
  else (dir, false)

theorem zfill_length (s : String) (w : Nat) (h : s.length ≤ w) :
    (zfill w s).length = w := by
  unfold zfill
  rw [String.length_append]
  have h1 : (List.replicate (w - s.length) '0').asString.length
      = w - s.length := by
    show (List.replicate (w - s.length) '0').length = w - s.length
    exact List.length_replicate _ _
  rw [h1]
  omega

theorem zfill_toList (w : Nat) (s : String) :
    (zfill w s).toList = List.replicate (w - s.length) '0' ++ s.toList := by
  unfold zfill
  cases s with
  | mk data => rfl

theorem string_toList_inj {a b : String} (h : a.toList = b.toList) :
    a = b := by
  cases a
  cases b
  exact congrArg String.mk h

theorem string_append_inj {a b c d : String} (h : a ++ c = b ++ d)
    (hl : a.length = b.length) : a = b ∧ c = d := by
  have h1 := congrArg String.toList h
  have hA : (a ++ c).toList = a.toList ++ c.toList := by
    cases a; cases c; rfl
  have hB : (b ++ d).toList = b.toList ++ d.toList := by
    cases b; cases d; rfl
  rw [hA, hB] at h1
  have h2 := List.append_inj h1 hl
  exact ⟨string_toList_inj h2.1, string_toList_inj h2.2⟩

theorem takeWhile_replicate_zero_append (k : Nat) (c : Char)
    (cs : List Char) (hc : (c == '0') = false) :
    (List.replicate k '0' ++ c :: cs).takeWhile (fun x => x == '0')
      = List.replicate k '0' := by
  induction k with
  | zero => simp [List.takeWhile_cons, hc]
  | succ k ih => simp [List.replicate_succ, List.takeWhile_cons, ih]

theorem toString_length_mono {m n : Nat} (h : m ≤ n) :
    (toString m).length ≤ (toString n).length := by
  show (toString m).toList.length ≤ (toString n).toList.length
  rw [toString_nat_toList, toString_nat_toList]
  exact decDigits_length_mono n m h

theorem decDigits_cons (n : Nat) :
    ∃ c cs, decDigits n = c :: cs := by
  cases hh : decDigits n with
  | nil =>
    have := decDigits_length_pos n
    rw [hh] at this
    simp at this
  | cons c cs => exact ⟨c, cs, rfl⟩

theorem zfill_toString_inj {d a b : Nat} (ha : 1 ≤ a) (hb : 1 ≤ b)
    (hla : (toString a).length ≤ d) (hlb : (toString b).length ≤ d)
    (h : zfill d (toString a) = zfill d (toString b)) : a = b := by
  have hl := congrArg String.toList h
  rw [zfill_toList, zfill_toList, toString_nat_toList,
    toString_nat_toList] at hl
  obtain ⟨ca, csa, hconsa⟩ := decDigits_cons a
  obtain ⟨cb, csb, hconsb⟩ := decDigits_cons b
  have hca : (ca == '0') = false := by
    have := decDigits_head_ne_zero a ha ca csa hconsa
    simpa using this
  have hcb : (cb == '0') = false := by
    have := decDigits_head_ne_zero b hb cb csb hconsb
    simpa using this
  have ht := congrArg (List.takeWhile (fun x => x == '0')) hl
  rw [hconsa, hconsb, takeWhile_replicate_zero_append _ _ _ hca,
    takeWhile_replicate_zero_append _ _ _ hcb] at ht
  have hlens : d - (toString a).length = d - (toString b).length := by
    have := congrArg List.length ht
    simpa using this
  have hlenab : (toString a).length = (toString b).length := by omega
  have hrep : List.replicate (d - (toString a).length) '0'
      = List.replicate (d - (toString b).length) '0' := by rw [hlens]
  have hdd := List.append_inj hl (by rw [hlens])
  exact decDigits_inj a b hdd.2

theorem album_symlink_names_length (bn : PhotoRec → String)
    (photos : List PhotoRec) :
    (album_symlink_names bn photos).length = photos.length := by
  unfold album_symlink_names
  rw [List.length_map, List.enum_length]

theorem album_symlink_names_get (bn : PhotoRec → String)
    (photos : List PhotoRec) (i : Nat) (h : i < photos.length) :
    (album_symlink_names bn photos).getD i ""
      = zfill (toString photos.length).length (toString (i + 1)) ++ "_"
          ++ bn (photos.getD i default) := by
  have hlen : i < (album_symlink_names bn photos).length := by
    rw [album_symlink_names_length]
    exact h
  rw [List.getD_eq_getElem _ _ hlen, List.getD_eq_getElem _ _ h]
  unfold album_symlink_names
  simp [List.getElem_map, List.getElem_enum]

theorem album_symlink_names_nodup (bn : PhotoRec → String)
    (photos : List PhotoRec) : (album_symlink_names bn photos).Nodup := by
  rw [List.nodup_iff_injective_get]
  intro i j hij
  have hi : i.1 < photos.length :=
    lt_of_lt_of_eq i.2 (album_symlink_names_length bn photos)
  have hj : j.1 < photos.length :=
    lt_of_lt_of_eq j.2 (album_symlink_names_length bn photos)
  have ei : (album_symlink_names bn photos).get i
      = zfill (toString photos.length).length (toString (i.1 + 1)) ++ "_"
          ++ bn (photos.getD i.1 default) := by
    rw [List.get_eq_getElem, ← List.getD_eq_getElem _ ""
      (lt_of_lt_of_eq hi (album_symlink_names_length bn photos).symm)]
    exact album_symlink_names_get bn photos i.1 hi
  have ej : (album_symlink_names bn photos).get j
      = zfill (toString photos.length).length (toString (j.1 + 1)) ++ "_"
          ++ bn (photos.getD j.1 default) := by
    rw [List.get_eq_getElem, ← List.getD_eq_getElem _ ""
      (lt_of_lt_of_eq hj (album_symlink_names_length bn photos).symm)]
    exact album_symlink_names_get bn photos j.1 hj
  rw [ei, ej] at hij
  have hlti : (toString (i.1 + 1)).length
      ≤ (toString photos.length).length :=
    toString_length_mono (by omega)
  have hltj : (toString (j.1 + 1)).length
      ≤ (toString photos.length).length :=
    toString_length_mono (by omega)
  have htag1 := (string_append_inj hij (by
    rw [String.length_append, String.length_append,
      zfill_length _ _ hlti, zfill_length _ _ hltj])).1
  have htag := (string_append_inj htag1 (by
    rw [zfill_length _ _ hlti, zfill_length _ _ hltj])).1
  have := zfill_toString_inj (by omega) (by omega) hlti hltj htag
  exact Fin.ext (by omega)

/-- The album and tampered directory used to refute claim C6: the
directory exists and its metadata sidecar equals the freshly stamped
record, but its entries were replaced by junk behind the mirrorer's
back. -/
def c6_album : AlbumRec :=
  { id := "77", title := "Trip", photos := [],
    flickrmirrorer_album_metadata_version := 0, extra := [] }

def c6_member : PhotoRec :=
  { (default : PhotoRec) with id := "9", originalformat := "jpg" }

def c6_tampered_dir : AlbumDirState :=
  { present := true, entries := ["junk"],
    metadata := some (stamp_album c6_album [c6_member]) }

/-- Counterexample for claim C6: reconciling an album whose directory
exists with a matching metadata sidecar but tampered symlink entries
performs no rebuild and leaves the directory untouched, so its symlink
set is not in bijection with the member list — the claim's "regardless
of what the directory contained before" fails.  The code's own TODO at
lines 622-624 records exactly this gap. -/
theorem album_tampered_dir_not_rebuilt :
    mirror_album get_photo_basename_photo [c6_member] c6_album
        c6_tampered_dir
      = (c6_tampered_dir, false) ∧
    c6_tampered_dir.entries
      ≠ album_symlink_names get_photo_basename_photo [c6_member] := by
  constructor
  · rfl
  · decide

/-- Claim C6 as amended: whenever `_mirror_album` rebuilds the album
directory — because it is absent or its metadata sidecar differs from
the freshly stamped record — the rebuild happens (directory deleted
recursively, recreated empty), the new directory's symlink set is in
exact bijection with the album's member list in recorded order (exactly
one symlink per member, the `i`-th carrying the fixed-width zero-padded
positional tag `i + 1` before the member's basename, all names pairwise
distinct), and the sidecar holds the stamped record.  When the directory
exists and its sidecar equals the stamped record, it is left untouched,
so prior tampering survives (see the counterexample). -/
theorem mirror_album_rebuild_bijection (bn : PhotoRec → String)
    (photos : List PhotoRec) (albumIn : AlbumRec) (dir : AlbumDirState)
    (h : dir.present = false ∨
      is_file_different (fun _ => dir.metadata) "metadata"
        (stamp_album albumIn photos) = true) :
    (mirror_album bn photos albumIn dir).2 = true ∧
    (mirror_album bn photos albumIn dir).1.entries
      = album_symlink_names bn photos ∧
    (mirror_album bn photos albumIn dir).1.metadata
      = some (stamp_album albumIn photos) ∧
    (album_symlink_names bn photos).length = photos.length ∧
    (∀ i, i < photos.length →
      (album_symlink_names bn photos).getD i ""
        = zfill (toString photos.length).length (toString (i + 1)) ++ "_"
            ++ bn (photos.getD i default)) ∧
    (album_symlink_names bn photos).Nodup := by
  have hcond : (!dir.present
      || is_file_different (fun _ => dir.metadata) "metadata"
          (stamp_album albumIn photos)) = true := by
    rcases h with h | h <;> simp [h]
  unfold mirror_album
  rw [if_pos hcond]
  exact ⟨rfl, rfl, rfl, album_symlink_names_length bn photos,
    album_symlink_names_get bn photos, album_symlink_names_nodup bn photos⟩

def c6w_members : List PhotoRec :=
  [{ (default : PhotoRec) with id := "8", originalformat := "jpg" },
   { (default : PhotoRec) with id := "9", originalformat := "jpg" }]

def c6w_empty_dir : AlbumDirState :=
  { present := false, entries := [], metadata := none }

/-- Witness for the amended C6: rebuilding a two-member album into an
absent directory yields exactly the two positionally tagged symlinks, in
member order, pairwise distinct. -/
theorem mirror_album_rebuild_bijection_witness :
    (mirror_album get_photo_basename_photo c6w_members c6_album
        c6w_empty_dir).1.entries = ["1_8.jpg", "2_9.jpg"] ∧
    (["1_8.jpg", "2_9.jpg"] : List String).Nodup := by
  have h := mirror_album_rebuild_bijection get_photo_basename_photo
    c6w_members c6_album c6w_empty_dir (Or.inl rfl)
  refine ⟨h.2.1.trans ?_, by decide⟩
  decide

end Flickrmirrorer
